import Mathlib

set_option autoImplicit false

namespace SmartDataConnector

/-!
Shallow embedding of the core of the smart-data-connector repository:
the schema-inference engine (`backend/src/lib/schema.js`), the config
generator (`backend/src/lib/generator.js`) and the retrying HTTP fetch
layer (`backend/src/lib/fetcher.js`).  JavaScript objects are modelled as
insertion-ordered association lists, mirroring the own-property
enumeration order the source relies on; JavaScript numbers are modelled
as rationals, with `Number.isInteger` becoming `den = 1`.
-/

/-- A decoded JSON value.  Objects keep their properties in enumeration
order, as the source's `for (const key in obj)` loops require. -/
inductive Json where
  | null
  | bool (b : Bool)
  | num (q : Rat)
  | str (s : String)
  | arr (elems : List Json)
  | obj (fields : List (String × Json))

/-- One inferred field, as produced by `inferFields` in `schema.js`. -/
structure Field where
  name : String
  type : String
  sample : Json

/-- Tests whether a value is a non-empty array, the condition
`Array.isArray(obj[key]) && obj[key].length > 0` of `findArrayPath`. -/
def isNonEmptyArray : Json → Bool
  | .arr (_ :: _) => true
  | _ => false

/-- Embeds `findArrayPath` from `schema.js`: a top-level array or a
non-object yields `null`; otherwise the first own property whose value is
a non-empty array is returned. -/
def findArrayPath : Json → Option String
  | .obj fs => (fs.find? (fun p => isNonEmptyArray p.2)).map Prod.fst
  | _ => none

/-- Embeds `inferType` from `schema.js`.  A number with no fractional
part (`Number.isInteger`) is tagged `integer`, any other number
`number`. -/
def inferType : Json → String
  | .null => "null"
  | .arr _ => "array"
  | .obj _ => "object"
  | .num q => if q.den = 1 then "integer" else "number"
  | .str _ => "string"
  | .bool _ => "boolean"

/-- Embeds `inferFields` from `schema.js`.  In JavaScript an array is
itself an object whose enumerable keys are its indices, so an array
sample contributes index-named fields; primitives and `null` contribute
none. -/
def inferFields : Json → List Field
  | .obj fs => fs.map (fun p => { name := p.1, type := inferType p.2, sample := p.2 })
  | .arr es => es.enum.map (fun p => { name := toString p.1, type := inferType p.2, sample := p.2 })
  | _ => []

/-- Accumulator entry of the `fieldMap` used by `mergeFieldTypes`: the
field name, the insertion-ordered set of observed type tags, and the
sample value from the first occurrence. -/
structure FieldAcc where
  name : String
  types : List String
  sample : Json

/-- One step of the `fieldMap` construction in `mergeFieldTypes`: a new
name is appended (JavaScript `Map` preserves insertion order), an
existing entry has the type tag added to its `Set` (which keeps
first-insertion order and ignores duplicates). -/
def addField (acc : List FieldAcc) (f : Field) : List FieldAcc :=
  if acc.any (fun fa => fa.name == f.name) then
    acc.map (fun fa =>
      if fa.name == f.name then
        { fa with types := if fa.types.contains f.type then fa.types else fa.types ++ [f.type] }
      else fa)
  else
    acc ++ [{ name := f.name, types := [f.type], sample := f.sample }]

/-- Lexicographic order on character lists by code unit, the comparison
JavaScript `Array.prototype.sort()` applies to strings. -/
def charListLe : List Char → List Char → Bool
  | [], _ => true
  | _ :: _, [] => false
  | a :: as, b :: bs =>
    if a.toNat < b.toNat then true
    else if b.toNat < a.toNat then false
    else charListLe as bs

/-- Lexicographic order on strings by code unit. -/
def strLe (a b : String) : Bool :=
  charListLe a.toList b.toList

/-- Insertion step of a lexicographic insertion sort on strings,
modelling JavaScript `Array.prototype.sort()` on the ASCII type tags. -/
def insertSorted (s : String) : List String → List String
  | [] => [s]
  | t :: ts => if strLe s t then s :: t :: ts else t :: insertSorted s ts

/-- Lexicographic sort on strings, modelling `types.sort()`. -/
def sortStrings : List String → List String
  | [] => []
  | t :: ts => insertSorted t (sortStrings ts)

/-- The final type string of `mergeFieldTypes`:
`types.length === 1 ? types[0] : types.sort().join('|')`. -/
def unionType : List String → String
  | [t] => t
  | ts => String.intercalate "|" (sortStrings ts)

/-- Embeds `mergeFieldTypes` from `schema.js`: every sample's fields are
folded into the insertion-ordered `fieldMap`, then each entry is
rendered with `unionType`.  The source's early return for an empty
sample list produces `[]`, which the fold also produces. -/
def mergeFieldTypes (samples : List Json) : List Field :=
  let acc := samples.foldl (fun acc s => (inferFields s).foldl addField acc) []
  acc.map (fun fa => { name := fa.name, type := unionType fa.types, sample := fa.sample })

/-- The `metaPaths` of a page-based pagination result. -/
structure PageMetaPaths where
  currentPage : String
  perPage : String
  total : String
deriving DecidableEq

/-- The `metaPaths` of an offset-based pagination result. -/
structure OffsetMetaPaths where
  offset : String
  limit : String
  total : String
deriving DecidableEq

/-- The two pagination descriptors `detectPagination` can return. -/
inductive Pagination where
  | page (pageParam : String) (limitParam : String) (metaPaths : PageMetaPaths)
  | offset (offsetParam : String) (limitParam : String) (metaPaths : OffsetMetaPaths)
deriving DecidableEq

/-- Membership of a key in an object's own properties, the JavaScript
`'k' in value` test. -/
def hasKey (fs : List (String × Json)) (k : String) : Bool :=
  fs.any (fun p => p.1 == k)

/-- The list `paginationKeys` declared at the top of `detectPagination`
in `schema.js`.  The surrounding code never reads it. -/
def paginationKeys : List String :=
  ["meta", "pagination", "paging", "page_info"]

/-- The loop body of `detectPagination` applied to one own property
`(key, value)`: a non-array object value is tested for the page-based
signature and then for the offset-based signature, with the source's
nested conditional key selection. -/
def checkPaginationContainer (key : String) (value : Json) : Option Pagination :=
  match value with
  | .obj g =>
    let hasPage := hasKey g "page" || hasKey g "current_page" || hasKey g "currentPage"
    let hasPerPage := hasKey g "per_page" || hasKey g "page_size" || hasKey g "perPage" || hasKey g "pageSize"
    let hasTotal := hasKey g "total" || hasKey g "total_count" || hasKey g "totalCount"
    if hasPage && (hasPerPage || hasTotal) then
      let pageKey := if hasKey g "page" then "page" else if hasKey g "current_page" then "current_page" else "currentPage"
      let perPageKey := if hasKey g "per_page" then "per_page" else if hasKey g "page_size" then "page_size" else if hasKey g "perPage" then "perPage" else "pageSize"
      let totalKey := if hasKey g "total" then "total" else if hasKey g "total_count" then "total_count" else "totalCount"
      some (.page "page" "limit"
        { currentPage := key ++ "." ++ pageKey
          perPage := key ++ "." ++ perPageKey
          total := key ++ "." ++ totalKey })
    else if hasKey g "offset" && hasKey g "limit" then
      some (.offset "offset" "limit"
        { offset := key ++ "." ++ "offset"
          limit := key ++ "." ++ "limit"
          total := key ++ "." ++ "total" })
    else none
  | _ => none

/-- The property scan of `detectPagination`: the first own property whose
value matches a signature wins. -/
def detectPaginationList : List (String × Json) → Option Pagination
  | [] => none
  | (key, value) :: rest =>
    match checkPaginationContainer key value with
    | some p => some p
    | none => detectPaginationList rest

/-- Embeds `detectPagination` from `schema.js`.  A JavaScript array is an
object whose enumerable keys are its indices, so an array input is
scanned index by index; primitives and `null` yield `null`. -/
def detectPagination : Json → Option Pagination
  | .obj fs => detectPaginationList fs
  | .arr es => detectPaginationList (es.enum.map (fun p => (toString p.1, p.2)))
  | _ => none

/-- The schema record produced by `inferSchema`. -/
structure Schema where
  samplePath : String
  fields : List Field
  pagination : Option Pagination

/-- JavaScript property read `data[key]`, returning the first binding of
`key` (real JavaScript objects cannot bind a key twice). -/
def getProp (fs : List (String × Json)) (k : String) : Json :=
  ((fs.find? (fun p => p.1 == k)).map Prod.snd).getD .null

/-- The sampling step `array.slice(0, Math.min(5, array.length))`. -/
def jsonSlice5 : Json → List Json
  | .arr es => es.take 5
  | _ => []

/-- Embeds `inferSchema` from `schema.js`.  Note the source tests the key
returned by `findArrayPath` for truthiness (`if (arrayKey)`), so the
empty-string key is treated like "no array found".  Pagination is only
detected when the input is not a top-level array. -/
def inferSchema (data : Json) : Option Schema :=
  match data with
  | .arr [] => none
  | .arr es => some { samplePath := "$", fields := mergeFieldTypes (es.take 5), pagination := none }
  | .obj fs =>
    match findArrayPath (.obj fs) with
    | some key =>
      if key = "" then none
      else
        some { samplePath := "$." ++ key
               fields := mergeFieldTypes (jsonSlice5 (getProp fs key))
               pagination := detectPagination (.obj fs) }
    | none => none
  | _ => none

/-!
Embedding of `backend/src/lib/generator.js`.
-/

/-- JavaScript `a || b` on an optional string: `undefined` and the empty
string (both falsy) select the default. -/
def jsOr (o : Option String) (d : String) : String :=
  match o with
  | some s => if s = "" then d else s
  | none => d

/-- The `SENSITIVE_HEADERS` substring denylist from `generator.js`. -/
def SENSITIVE_HEADERS : List String :=
  ["authorization", "api-key", "api_key", "apikey", "x-api-key",
   "x-auth-token", "token", "secret", "password", "bearer"]

/-- Boolean prefix test on character lists. -/
def charsHavePre : List Char → List Char → Bool
  | [], _ => true
  | _ :: _, [] => false
  | a :: as, b :: bs => a == b && charsHavePre as bs

/-- Boolean contiguous-substring test on character lists. -/
def charsHaveSub (needle : List Char) : List Char → Bool
  | [] => charsHavePre needle []
  | b :: bs => charsHavePre needle (b :: bs) || charsHaveSub needle bs

/-- JavaScript `hay.includes(needle)` on strings. -/
def strIncludes (hay needle : String) : Bool :=
  charsHaveSub needle.toList hay.toList

/-- JavaScript `key.toLowerCase()`, applied character by character. -/
def strToLower (s : String) : String :=
  String.mk (s.toList.map Char.toLower)

/-- The sensitivity test of `maskSensitiveHeaders`: the lower-cased
header name contains some denylist entry as a substring. -/
def isSensitiveName (k : String) : Bool :=
  SENSITIVE_HEADERS.any (fun s => strIncludes (strToLower k) s)

/-- Embeds `maskSensitiveHeaders` from `generator.js`: every header is
kept, in order, with the value of a sensitive-named header replaced by
the literal placeholder. -/
def maskSensitiveHeaders (headers : List (String × String)) : List (String × String) :=
  headers.map (fun kv => (kv.1, if isSensitiveName kv.1 then "<masked>" else kv.2))

/-- The pagination object a caller-supplied schema may carry into the
generator; any of its members may be absent. -/
structure PagInput where
  type : String
  pageParam : Option String
  limitParam : Option String
  metaPaths : Option (List (String × String))

/-- The schema object consumed by `generateDatasourceJSON` and
`generateImportWrapper`; members absent from the JavaScript object are
`none` and take the destructuring defaults. -/
structure GenSchema where
  url : Option String
  fields : Option (List Field)
  samplePath : Option String
  pagination : Option PagInput
  headers : Option (List (String × String))
  queryParams : Option (List (String × String))

/-- The `datasource` record built by `generateDatasourceJSON`. -/
structure DatasourceConfig where
  name : String
  type : String
  url : Option String
  method : String
  headers : List (String × String)
  queryParams : List (String × String)

/-- The full return value of `generateDatasourceJSON`. -/
structure DatasourceOutput where
  datasource : DatasourceConfig
  fields : List Field
  samplePath : String
  pagination : Option PagInput

/-- Embeds `generateDatasourceJSON` from `generator.js`. -/
def generateDatasourceJSON (schema : GenSchema) (optsName : Option String) : DatasourceOutput :=
  { datasource :=
      { name := jsOr optsName "API Datasource"
        type := "restapi"
        url := schema.url
        method := "GET"
        headers := maskSensitiveHeaders (schema.headers.getD [])
        queryParams := schema.queryParams.getD [] }
    fields := schema.fields.getD []
    samplePath := jsOr schema.samplePath "$"
    pagination := schema.pagination }

/-- The `typeMap` object of `mapFieldType`. -/
def typeMapLookup : String → Option String
  | "integer" => some "number"
  | "number" => some "number"
  | "string" => some "text"
  | "boolean" => some "boolean"
  | "object" => some "text"
  | "array" => some "text"
  | "null" => some "text"
  | _ => none

/-- Embeds `mapFieldType` from `generator.js`: a truthy type string
containing `|` is a union and maps to `text`; otherwise the `typeMap`
entry applies, defaulting to `text`. -/
def mapFieldType (t : String) : String :=
  if !(t == "") && strIncludes t "|" then "text"
  else (typeMapLookup t).getD "text"

/-- One generated table column. -/
structure Column where
  name : String
  key : String
  type : String
  selector : String
deriving DecidableEq

/-- The generated table component. -/
structure TableComp where
  component : String
  dataBinding : String
  columns : List Column
deriving DecidableEq

/-- The generated pagination component. -/
structure PagComp where
  component : String
  type : String
  pageParam : String
  limitParam : String
  metaPaths : List (String × String)
deriving DecidableEq

/-- The `components` record of the import wrapper. -/
structure Components where
  table : TableComp
  pagination : Option PagComp
deriving DecidableEq

/-- The `metadata` record of the import wrapper. -/
structure WrapperMetadata where
  samplePath : String
  fieldCount : Nat
  hasPagination : Bool
deriving DecidableEq

/-- The complete import wrapper built by `generateImportWrapper`. -/
structure ImportWrapper where
  version : String
  datasource : DatasourceConfig
  components : Components
  metadata : WrapperMetadata

/-- JavaScript `samplePath.replace('$', '')`: only the first occurrence
of the pattern is removed. -/
def dropFirstDollar : List Char → List Char
  | [] => []
  | c :: cs => if c == '$' then cs else c :: dropFirstDollar cs

/-- String form of `dropFirstDollar`. -/
def replaceFirstDollar (s : String) : String :=
  String.mk (dropFirstDollar s.toList)

/-- Embeds `generateImportWrapper` from `generator.js`. -/
def generateImportWrapper (schema : GenSchema) (optsName : Option String) : ImportWrapper :=
  let fields := schema.fields.getD []
  let samplePath := schema.samplePath.getD "$"
  let datasourceConfig := generateDatasourceJSON schema optsName
  let columns := fields.map (fun f =>
    { name := f.name
      key := f.name
      type := mapFieldType f.type
      selector := samplePath ++ "[]." ++ f.name })
  { version := "1.0.0"
    datasource := datasourceConfig.datasource
    components :=
      { table :=
          { component := "Table"
            dataBinding := "\x7b\x7bdatasource.data" ++ replaceFirstDollar samplePath ++ "\x7d\x7d"
            columns := columns }
        pagination :=
          match schema.pagination with
          | some p =>
            some { component := "Pagination"
                   type := p.type
                   pageParam := jsOr p.pageParam "page"
                   limitParam := jsOr p.limitParam "limit"
                   metaPaths := p.metaPaths.getD [] }
          | none => none }
    metadata :=
      { samplePath := samplePath
        fieldCount := fields.length
        hasPagination := schema.pagination.isSome } }

/-!
Embedding of `backend/src/lib/fetcher.js`.  The network is abstracted as
a function from the attempt index to the attempt's outcome; the three
outcome shapes mirror the three paths of the source's `try`/`catch`
(axios resolved — which, with `validateStatus: () => true`, happens for
every received status code —, axios threw with `error.response` set, and
axios threw with no response).  The embedding additionally records the
number of attempts performed and the backoff delays slept, which the
source realises operationally.
-/

/-- Outcome of a single axios attempt inside `fetchWithRetry`. -/
inductive AttemptOutcome where
  | resolved (status : Nat) (statusText : String) (respHeaders : List (String × String)) (body : Json)
  | threwWithResponse (status : Nat) (statusText : String) (respHeaders : List (String × String)) (body : Json) (msg : String)
  | threwNoResponse (msg : String) (code : Option String)

/-- The result object returned by `fetchWithRetry`; members the source
leaves off a given return object are `none` / `[]`. -/
structure FetchResult where
  success : Bool
  status : Nat
  statusText : Option String
  respHeaders : List (String × String)
  data : Option Json
  error : Option String
  errorType : Option String

/-- A `fetchWithRetry` run: final result, number of attempts performed,
and the list of backoff delays slept between attempts. -/
structure FetchTrace where
  result : FetchResult
  attemptsMade : Nat
  delays : List Nat

/-- Tests whether an attempt failed with no response received. -/
def isNetErr : AttemptOutcome → Bool
  | .threwNoResponse _ _ => true
  | _ => false

/-- The result `fetchWithRetry` builds from an attempt whose response
was received (either the resolved path or the `error.response` path of
the `catch`).  The last case is never used for a received response. -/
def respResult : AttemptOutcome → FetchResult
  | .resolved st stx hs b =>
    { success := true, status := st, statusText := some stx, respHeaders := hs
      data := some b, error := none, errorType := none }
  | .threwWithResponse st stx hs b m =>
    { success := false, status := st, statusText := some stx, respHeaders := hs
      data := some b, error := some m, errorType := none }
  | .threwNoResponse m c =>
    { success := false, status := 0, statusText := none, respHeaders := []
      data := none, error := some m, errorType := some (jsOr c "NETWORK_ERROR") }

/-- The `while (attempt <= maxRetries)` loop of `fetchWithRetry`.
`idx` is the index of the next attempt and `remaining` the number of
loop iterations left (`maxRetries + 1 - idx`); `lastMsg`/`lastCode`
carry `lastError`.  When the loop exits, the source returns the
network-failure result with `status: 0` and
`errorType: lastError.code || 'NETWORK_ERROR'`. -/
def fetchLoop (attempts : Nat → AttemptOutcome) (initialDelay : Nat)
    (lastMsg : String) (lastCode : Option String) (idx : Nat) :
    Nat → FetchTrace
  | 0 =>
    { result :=
        { success := false, status := 0, statusText := none, respHeaders := []
          data := none, error := some lastMsg, errorType := some (jsOr lastCode "NETWORK_ERROR") }
      attemptsMade := idx
      delays := [] }
  | r + 1 =>
    match attempts idx with
    | .resolved st stx hs b =>
      { result := respResult (.resolved st stx hs b), attemptsMade := idx + 1, delays := [] }
    | .threwWithResponse st stx hs b m =>
      { result := respResult (.threwWithResponse st stx hs b m), attemptsMade := idx + 1, delays := [] }
    | .threwNoResponse m c =>
      let rest := fetchLoop attempts initialDelay m c (idx + 1) r
      if r = 0 then rest
      else { rest with delays := initialDelay * 2 ^ idx :: rest.delays }

/-- Embeds `fetchWithRetry` from `fetcher.js`, with the network call
abstracted by `attempts`.  The first attempt runs unconditionally and a
failed attempt with no response is retried up to `maxRetries` times with
delay `initialDelay * 2 ^ (attempt - 1)` before retry number
`attempt`. -/
def fetchWithRetry (attempts : Nat → AttemptOutcome) (maxRetries initialDelay : Nat) : FetchTrace :=
  fetchLoop attempts initialDelay "" none 0 (maxRetries + 1)

/-- The exponential backoff delays the loop sleeps: `r` delays starting
at exponent `idx`. -/
def backoffDelays (d : Nat) : Nat → Nat → List Nat
  | _, 0 => []
  | idx, r + 1 => d * 2 ^ idx :: backoffDelays d (idx + 1) r

/-!
Claim-side vocabulary: definitions that restate parts of the
specification's wording, used to compare the embedded source functions
against the specified behaviour.
-/

/-- First-seen deduplication, skipping elements already in `seen`. -/
def dedupAux (seen : List String) : List String → List String
  | [] => []
  | x :: xs => if x ∈ seen then dedupAux seen xs else x :: dedupAux (x :: seen) xs

/-- Keeps the first occurrence of every string, in first-seen order. -/
def dedupKeepFirst (l : List String) : List String :=
  dedupAux [] l

/-- All fields contributed by a list of samples, in sample order. -/
def allFields : List Json → List Field
  | [] => []
  | s :: ss => inferFields s ++ allFields ss

/-- The names of a field list, in order. -/
def namesOf (l : List Field) : List String :=
  l.map Field.name

/-- The distinct type tags observed for field name `n` in a field
stream, in first-seen order. -/
def typesAt (l : List Field) (n : String) : List String :=
  dedupKeepFirst ((l.filter (fun f => f.name == n)).map Field.type)

/-- The sample value of the first occurrence of field name `n`. -/
def sampleAt (l : List Field) (n : String) : Option Json :=
  (l.find? (fun f => f.name == n)).map Field.sample

/-- Modelled from the claim's words: the merged field list has exactly
one entry per distinct name, in first-seen order; each entry's type is
the single tag when all occurrences agree and otherwise the distinct
observed tags sorted and `|`-joined; the sample comes from the first
occurrence. -/
def mergedFieldsSpec (l : List Field) : List Field :=
  (dedupKeepFirst (namesOf l)).map (fun n =>
    { name := n, type := unionType (typesAt l n), sample := (sampleAt l n).getD .null })

/-- Invariant tying the `fieldMap` accumulator of `mergeFieldTypes` to
the stream of fields already processed: the entries are the distinct
names in first-seen order, each carrying the distinct type tags observed
for that name in first-seen order and the first-seen sample value. -/
def MergeInv (l : List Field) (acc : List FieldAcc) : Prop :=
  acc.map FieldAcc.name = dedupKeepFirst (namesOf l) ∧
  ∀ fa ∈ acc, fa.types = typesAt l fa.name ∧ sampleAt l fa.name = some fa.sample

/-- The first key of `keys` present in the container `g`. -/
def firstPresent (g : List (String × Json)) (keys : List String) : Option String :=
  keys.find? (fun k => hasKey g k)

/-- The page-synonym set recognised by `detectPagination`. -/
def pageSyns : List String := ["page", "current_page", "currentPage"]

/-- The per-page-synonym set recognised by `detectPagination`. -/
def perPageSyns : List String := ["per_page", "page_size", "perPage", "pageSize"]

/-- The total-synonym set recognised by `detectPagination`. -/
def totalSyns : List String := ["total", "total_count", "totalCount"]

/-- The page-based signature: a current-page key together with a
per-page key or a total key. -/
def pageSigB (g : List (String × Json)) : Bool :=
  (hasKey g "page" || hasKey g "current_page" || hasKey g "currentPage")
    && ((hasKey g "per_page" || hasKey g "page_size" || hasKey g "perPage" || hasKey g "pageSize")
        || (hasKey g "total" || hasKey g "total_count" || hasKey g "totalCount"))

/-- The offset-based signature: both an offset key and a limit key. -/
def offsetSigB (g : List (String × Json)) : Bool :=
  hasKey g "offset" && hasKey g "limit"

/-- A property value accepted as a pagination container: a non-array
object matching one of the two signatures. -/
def containerMatch : Json → Bool
  | .obj g => pageSigB g || offsetSigB g
  | _ => false

/-- The canonical parameter names the claims require of any returned
pagination descriptor. -/
def paramsCanonical : Pagination → Prop
  | .page pp lp _ => pp = "page" ∧ lp = "limit"
  | .offset op lp _ => op = "offset" ∧ lp = "limit"

/-!
Theorems about the fetch layer (claims C1, C2, C3).
-/

theorem backoffDelays_length (d : Nat) :
    ∀ (r idx : Nat), (backoffDelays d idx r).length = r := by
  intro r
  induction r with
  | zero => intro idx; rfl
  | succ n ih => intro idx; simp [backoffDelays, ih]

theorem backoffDelays_get (d : Nat) :
    ∀ (r idx i : Nat) (h : i < (backoffDelays d idx r).length),
      (backoffDelays d idx r).get ⟨i, h⟩ = d * 2 ^ (idx + i) := by
  intro r
  induction r with
  | zero => intro idx i h; simp [backoffDelays] at h
  | succ n ih =>
    intro idx i h
    match i with
    | 0 => simp [backoffDelays]
    | i + 1 =>
      have hlt : i < (backoffDelays d (idx + 1) n).length := by
        simp only [backoffDelays, List.length_cons] at h
        omega
      have hg := ih (idx + 1) i hlt
      have e : idx + 1 + i = idx + (i + 1) := by omega
      rw [e] at hg
      simpa [backoffDelays] using hg

theorem fetchLoop_netErr_step (attempts : Nat → AttemptOutcome) (d : Nat)
    (lm : String) (lc : Option String) (idx r : Nat) (msg : String) (code : Option String)
    (h : attempts idx = .threwNoResponse msg code) :
    fetchLoop attempts d lm lc idx (r + 1) =
      if r = 0 then fetchLoop attempts d msg code (idx + 1) r
      else { fetchLoop attempts d msg code (idx + 1) r with
             delays := d * 2 ^ idx :: (fetchLoop attempts d msg code (idx + 1) r).delays } := by
  conv_lhs => rw [fetchLoop]
  rw [h]

theorem fetchLoop_resp_step (attempts : Nat → AttemptOutcome) (d : Nat)
    (lm : String) (lc : Option String) (idx r : Nat)
    (h : isNetErr (attempts idx) = false) :
    fetchLoop attempts d lm lc idx (r + 1) =
      { result := respResult (attempts idx), attemptsMade := idx + 1, delays := [] } := by
  conv_lhs => rw [fetchLoop]
  cases houtcome : attempts idx with
  | resolved st stx hs b => rfl
  | threwWithResponse st stx hs b msg => rfl
  | threwNoResponse msg code => rw [houtcome] at h; simp [isNetErr] at h

theorem fetchLoop_allNetErr (attempts : Nat → AttemptOutcome) (d : Nat)
    (m : Nat → String) (c : Nat → Option String) :
    ∀ (r idx : Nat) (lm : String) (lc : Option String),
      (∀ k, k < r + 1 → attempts (idx + k) = .threwNoResponse (m (idx + k)) (c (idx + k))) →
      fetchLoop attempts d lm lc idx (r + 1) =
        { result :=
            { success := false, status := 0, statusText := none, respHeaders := []
              data := none, error := some (m (idx + r))
              errorType := some (jsOr (c (idx + r)) "NETWORK_ERROR") }
          attemptsMade := idx + r + 1
          delays := backoffDelays d idx r } := by
  intro r
  induction r with
  | zero =>
    intro idx lm lc h
    have h0 := h 0 (by omega)
    simp only [Nat.add_zero] at h0 ⊢
    rw [fetchLoop_netErr_step attempts d lm lc idx 0 (m idx) (c idx) h0]
    simp [fetchLoop, backoffDelays]
  | succ n ih =>
    intro idx lm lc h
    have h0 := h 0 (by omega)
    simp only [Nat.add_zero] at h0
    have hrest := ih (idx + 1) (m idx) (c idx) (fun k hk => by
      have hx := h (k + 1) (by omega)
      have e : idx + (k + 1) = idx + 1 + k := by omega
      rw [e] at hx
      exact hx)
    have e1 : idx + 1 + n = idx + (n + 1) := by omega
    rw [e1] at hrest
    rw [fetchLoop_netErr_step attempts d lm lc idx (n + 1) (m idx) (c idx) h0]
    rw [if_neg (Nat.succ_ne_zero n), hrest]
    simp only [backoffDelays]

theorem fetchLoop_firstResponse (attempts : Nat → AttemptOutcome) (d : Nat) :
    ∀ (i r idx : Nat) (lm : String) (lc : Option String),
      i < r →
      (∀ k, k < i → isNetErr (attempts (idx + k)) = true) →
      isNetErr (attempts (idx + i)) = false →
      fetchLoop attempts d lm lc idx r =
        { result := respResult (attempts (idx + i))
          attemptsMade := idx + i + 1
          delays := backoffDelays d idx i } := by
  intro i
  induction i with
  | zero =>
    intro r idx lm lc hir _ hresp
    simp only [Nat.add_zero] at hresp ⊢
    match r, hir with
    | r + 1, _ =>
      rw [fetchLoop_resp_step attempts d lm lc idx r hresp]
      simp [backoffDelays]
  | succ n ih =>
    intro r idx lm lc hir hpre hresp
    match r, hir with
    | r + 1, hlt =>
      have h0 := hpre 0 (by omega)
      simp only [Nat.add_zero] at h0
      cases houtcome : attempts idx with
      | resolved st stx hs b => rw [houtcome] at h0; simp [isNetErr] at h0
      | threwWithResponse st stx hs b msg => rw [houtcome] at h0; simp [isNetErr] at h0
      | threwNoResponse msg c =>
        have hr : n < r := by omega
        have hrest := ih r (idx + 1) msg c hr
          (fun k hk => by
            have hx := hpre (k + 1) (by omega)
            have e : idx + (k + 1) = idx + 1 + k := by omega
            rw [e] at hx
            exact hx)
          (by
            have e : idx + (n + 1) = idx + 1 + n := by omega
            rw [e] at hresp
            exact hresp)
        have hrne : r ≠ 0 := by omega
        have e1 : idx + 1 + n = idx + (n + 1) := by omega
        rw [e1] at hrest
        rw [fetchLoop_netErr_step attempts d lm lc idx r msg c houtcome]
        rw [if_neg hrne, hrest]
        simp [backoffDelays]

/-- C2: when no attempt ever receives a response, `fetchWithRetry`
performs exactly `maxRetries + 1` attempts, sleeps
`initialDelay * 2 ^ (attempt - 1)` before retry number `attempt` for
`attempt = 1 .. maxRetries`, and returns
`success = false`, `status = 0`, the last error's message, and the
classified error type `lastError.code || "NETWORK_ERROR"`. -/
theorem fetchWithRetry_exhausted_network_failure
    (attempts : Nat → AttemptOutcome) (maxRetries initialDelay : Nat)
    (m : Nat → String) (c : Nat → Option String)
    (h : ∀ j, j ≤ maxRetries → attempts j = .threwNoResponse (m j) (c j)) :
    (fetchWithRetry attempts maxRetries initialDelay).attemptsMade = maxRetries + 1 ∧
    (fetchWithRetry attempts maxRetries initialDelay).delays.length = maxRetries ∧
    (∀ i (hi : i < (fetchWithRetry attempts maxRetries initialDelay).delays.length),
      (fetchWithRetry attempts maxRetries initialDelay).delays.get ⟨i, hi⟩ = initialDelay * 2 ^ i) ∧
    (fetchWithRetry attempts maxRetries initialDelay).result.success = false ∧
    (fetchWithRetry attempts maxRetries initialDelay).result.status = 0 ∧
    (fetchWithRetry attempts maxRetries initialDelay).result.error = some (m maxRetries) ∧
    (fetchWithRetry attempts maxRetries initialDelay).result.errorType =
      some (jsOr (c maxRetries) "NETWORK_ERROR") := by
  have hrun := fetchLoop_allNetErr attempts initialDelay m c maxRetries 0 "" none
    (fun k hk => by simpa using h k (by omega))
  simp only [Nat.zero_add] at hrun
  unfold fetchWithRetry
  rw [hrun]
  refine ⟨rfl, backoffDelays_length initialDelay maxRetries 0, ?_, rfl, rfl, rfl, rfl⟩
  intro i hi
  have := backoffDelays_get initialDelay maxRetries 0 i hi
  simpa using this

/-- C3: once an attempt receives a response (any status), the function
returns at once: the run performs exactly `i + 1` attempts when attempt
`i` is the first to receive a response, sleeps only the `i` backoff
delays that preceded it, and its result is built from that response. -/
theorem fetchWithRetry_stops_on_response
    (attempts : Nat → AttemptOutcome) (maxRetries initialDelay i : Nat)
    (hle : i ≤ maxRetries)
    (hpre : ∀ k, k < i → isNetErr (attempts k) = true)
    (hresp : isNetErr (attempts i) = false) :
    (fetchWithRetry attempts maxRetries initialDelay).attemptsMade = i + 1 ∧
    (fetchWithRetry attempts maxRetries initialDelay).delays.length = i ∧
    (fetchWithRetry attempts maxRetries initialDelay).result = respResult (attempts i) := by
  have hrun := fetchLoop_firstResponse attempts initialDelay i (maxRetries + 1) 0 "" none
    (by omega) (fun k hk => by simpa using hpre k hk) (by simpa using hresp)
  simp only [Nat.zero_add] at hrun
  unfold fetchWithRetry
  rw [hrun]
  exact ⟨rfl, backoffDelays_length initialDelay i 0, rfl⟩

/-- C1 (amended): with `validateStatus: () => true` axios resolves for
every received status, so an attempt that receives a non-2xx response
makes `fetchWithRetry` return `success = true` (not `false`), with the
status field equal to the received status code, no error type, and a
status that is never `0`; on the `catch` path that still carries a
response (`error.response`), `success = false` with the same status
guarantees. -/
theorem fetchWithRetry_non2xx_response
    (attempts : Nat → AttemptOutcome) (maxRetries initialDelay i st : Nat)
    (stx : String) (hs : List (String × String)) (b : Json)
    (hle : i ≤ maxRetries)
    (hpre : ∀ k, k < i → isNetErr (attempts k) = true)
    (hst : st ≠ 0) (_hnon2xx : st < 200 ∨ 300 ≤ st) :
    (attempts i = .resolved st stx hs b →
      (fetchWithRetry attempts maxRetries initialDelay).result.success = true ∧
      (fetchWithRetry attempts maxRetries initialDelay).result.status = st ∧
      (fetchWithRetry attempts maxRetries initialDelay).result.status ≠ 0 ∧
      (fetchWithRetry attempts maxRetries initialDelay).result.errorType = none) ∧
    (∀ msg, attempts i = .threwWithResponse st stx hs b msg →
      (fetchWithRetry attempts maxRetries initialDelay).result.success = false ∧
      (fetchWithRetry attempts maxRetries initialDelay).result.status = st ∧
      (fetchWithRetry attempts maxRetries initialDelay).result.status ≠ 0 ∧
      (fetchWithRetry attempts maxRetries initialDelay).result.errorType = none) := by
  constructor
  · intro hout
    have hrun := (fetchWithRetry_stops_on_response attempts maxRetries initialDelay i hle hpre
      (by rw [hout]; rfl)).2.2
    rw [hrun, hout]
    exact ⟨rfl, rfl, hst, rfl⟩
  · intro msg hout
    have hrun := (fetchWithRetry_stops_on_response attempts maxRetries initialDelay i hle hpre
      (by rw [hout]; rfl)).2.2
    rw [hrun, hout]
    exact ⟨rfl, rfl, hst, rfl⟩

/-- C1 counterexample: a run whose first attempt receives a 404 response
returns `success = true`, refuting the claim that a received non-2xx
status yields `success = false`. -/
theorem fetchWithRetry_non2xx_counterexample :
    (fetchWithRetry (fun _ => .resolved 404 "Not Found" [] .null) 2 500).result.success = true ∧
    (fetchWithRetry (fun _ => .resolved 404 "Not Found" [] .null) 2 500).result.status = 404 :=
  ⟨rfl, rfl⟩

/-- C1 witness: the amended theorem applied to a concrete run whose
first attempt receives a 503 response. -/
theorem fetchWithRetry_non2xx_response_witness :
    (fetchWithRetry (fun _ => .resolved 503 "Service Unavailable" [] .null) 3 100).result.success = true ∧
    (fetchWithRetry (fun _ => .resolved 503 "Service Unavailable" [] .null) 3 100).result.status = 503 ∧
    (fetchWithRetry (fun _ => .resolved 503 "Service Unavailable" [] .null) 3 100).result.status ≠ 0 ∧
    (fetchWithRetry (fun _ => .resolved 503 "Service Unavailable" [] .null) 3 100).result.errorType = none :=
  (fetchWithRetry_non2xx_response (fun _ => .resolved 503 "Service Unavailable" [] .null)
    3 100 0 503 "Service Unavailable" [] .null (by decide)
    (fun k hk => absurd hk (Nat.not_lt_zero k)) (by decide) (by decide)).1 rfl

/-- C2 witness: a run whose every attempt fails with `ECONNREFUSED`,
with `maxRetries = 2` and `initialDelay = 500`: three attempts, delays
500 and 1000, and the classified network-failure result. -/
theorem fetchWithRetry_exhausted_witness :
    (fetchWithRetry (fun _ => .threwNoResponse "connect ECONNREFUSED" (some "ECONNREFUSED")) 2 500).attemptsMade = 3 ∧
    (fetchWithRetry (fun _ => .threwNoResponse "connect ECONNREFUSED" (some "ECONNREFUSED")) 2 500).delays = [500, 1000] ∧
    (fetchWithRetry (fun _ => .threwNoResponse "connect ECONNREFUSED" (some "ECONNREFUSED")) 2 500).result.success = false ∧
    (fetchWithRetry (fun _ => .threwNoResponse "connect ECONNREFUSED" (some "ECONNREFUSED")) 2 500).result.status = 0 ∧
    (fetchWithRetry (fun _ => .threwNoResponse "connect ECONNREFUSED" (some "ECONNREFUSED")) 2 500).result.errorType = some "ECONNREFUSED" := by
  have h := fetchWithRetry_exhausted_network_failure
    (fun _ => .threwNoResponse "connect ECONNREFUSED" (some "ECONNREFUSED")) 2 500
    (fun _ => "connect ECONNREFUSED") (fun _ => some "ECONNREFUSED")
    (fun j _ => rfl)
  exact ⟨h.1, rfl, h.2.2.2.1, h.2.2.2.2.1, h.2.2.2.2.2.2.trans rfl⟩

/-- C3 witness: one network failure followed by a 200 response, with
`maxRetries = 3`: exactly two attempts are made and one delay slept. -/
theorem fetchWithRetry_stops_witness :
    (fetchWithRetry (fun n => if n = 0 then .threwNoResponse "timeout" (some "ETIMEDOUT") else .resolved 200 "OK" [] (.arr [.num 1])) 3 250).attemptsMade = 2 ∧
    (fetchWithRetry (fun n => if n = 0 then .threwNoResponse "timeout" (some "ETIMEDOUT") else .resolved 200 "OK" [] (.arr [.num 1])) 3 250).delays.length = 1 ∧
    (fetchWithRetry (fun n => if n = 0 then .threwNoResponse "timeout" (some "ETIMEDOUT") else .resolved 200 "OK" [] (.arr [.num 1])) 3 250).result.status = 200 := by
  have h := fetchWithRetry_stops_on_response
    (fun n => if n = 0 then .threwNoResponse "timeout" (some "ETIMEDOUT") else .resolved 200 "OK" [] (.arr [.num 1]))
    3 250 1 (by decide)
    (fun k hk => by
      match k, hk with
      | 0, _ => rfl)
    rfl
  exact ⟨h.1, h.2.1, by rw [h.2.2]; rfl⟩

/-!
Theorems about `inferSchema` dispatch (claim C4).
-/

theorem findArrayPath_first (pre post : List (String × Json)) (key : String) (arr : List Json)
    (harr : arr ≠ []) (hpre : ∀ p ∈ pre, isNonEmptyArray p.2 = false) :
    findArrayPath (.obj (pre ++ (key, .arr arr) :: post)) = some key := by
  have h1 : pre.find? (fun p => isNonEmptyArray p.2) = none :=
    List.find?_eq_none.mpr (fun x hx => by simp [hpre x hx])
  have h2 : isNonEmptyArray (.arr arr) = true := by
    cases arr with
    | nil => exact absurd rfl harr
    | cons a as => rfl
  have h3 : List.find? (fun p => isNonEmptyArray p.2) ((key, Json.arr arr) :: post) =
      some (key, Json.arr arr) := List.find?_cons_of_pos _ h2
  simp only [findArrayPath, List.find?_append, h1, Option.none_or, h3]
  rfl

theorem findArrayPath_none (fs : List (String × Json))
    (h : ∀ p ∈ fs, isNonEmptyArray p.2 = false) :
    findArrayPath (.obj fs) = none := by
  simp only [findArrayPath]
  rw [List.find?_eq_none.mpr (fun x hx => by simp [h x hx])]
  rfl

theorem getProp_first (pre post : List (String × Json)) (key : String) (v : Json)
    (hpre : ∀ p ∈ pre, p.1 ≠ key) :
    getProp (pre ++ (key, v) :: post) key = v := by
  have h1 : pre.find? (fun p => p.1 == key) = none :=
    List.find?_eq_none.mpr (fun x hx => by simp [hpre x hx])
  have h3 : List.find? (fun p => p.1 == key) ((key, v) :: post) = some (key, v) :=
    List.find?_cons_of_pos _ (by simp)
  simp only [getProp, List.find?_append, h1, Option.none_or, h3]
  rfl

/-- C4 (amended): `inferSchema` rejects `null` and the empty top-level
array; a non-empty top-level array yields `samplePath "$"` with the
first `min(5, length)` elements sampled and no pagination; an object
yields `samplePath "$.<key>"` for its first own property holding a
non-empty array — provided that key is a non-empty string, since the
source tests the found key for truthiness and an empty-string key is
treated as "no array found" — sampling that array's first
`min(5, length)` elements; an object with no non-empty-array property
yields `null`. -/
theorem inferSchema_dispatch :
    inferSchema .null = none ∧
    inferSchema (.arr []) = none ∧
    (∀ (e : Json) (es : List Json), inferSchema (.arr (e :: es)) =
      some { samplePath := "$", fields := mergeFieldTypes ((e :: es).take 5), pagination := none }) ∧
    (∀ (pre post : List (String × Json)) (key : String) (arr : List Json),
      arr ≠ [] →
      (∀ p ∈ pre, isNonEmptyArray p.2 = false) →
      (∀ p ∈ pre, p.1 ≠ key) →
      key ≠ "" →
      inferSchema (.obj (pre ++ (key, .arr arr) :: post)) =
        some { samplePath := "$." ++ key
               fields := mergeFieldTypes (arr.take 5)
               pagination := detectPagination (.obj (pre ++ (key, .arr arr) :: post)) }) ∧
    (∀ fs, (∀ p ∈ fs, isNonEmptyArray p.2 = false) → inferSchema (.obj fs) = none) := by
  refine ⟨rfl, rfl, fun e es => rfl, ?_, ?_⟩
  · intro pre post key arr harr hpre hkeys hkey
    simp only [inferSchema]
    rw [findArrayPath_first pre post key arr harr hpre]
    simp only [if_neg hkey]
    rw [getProp_first pre post key (.arr arr) hkeys]
    rfl
  · intro fs h
    simp only [inferSchema]
    rw [findArrayPath_none fs h]

/-- C4 counterexample: an object whose only non-empty-array property is
named by the empty string.  The claim requires a schema with
`samplePath "$."` here, but the source's truthiness test on the found
key makes `inferSchema` return `null`. -/
theorem inferSchema_empty_key_counterexample :
    inferSchema (.obj [("", .arr [.obj [("a", .num 1)]])]) = none := rfl

/-- C4 witness: the object case of the amended theorem evaluated on a
concrete wrapped response. -/
theorem inferSchema_dispatch_witness :
    inferSchema (.obj [("count", .num 2), ("items", .arr [.obj [("id", .num 1), ("name", .str "A")]])]) =
      some { samplePath := "$.items"
             fields := [{ name := "id", type := "integer", sample := .num 1 },
                        { name := "name", type := "string", sample := .str "A" }]
             pagination := none } := by
  have h := inferSchema_dispatch.2.2.2.1 [("count", .num 2)] [] "items"
    [.obj [("id", .num 1), ("name", .str "A")]]
    (List.cons_ne_nil _ _) (by decide) (by decide) (by decide)
  exact h.trans rfl

/-!
Theorems about `detectPagination` (claims C5 and C10).
-/

theorem keySelPage (g : List (String × Json)) :
    (if hasKey g "page" then "page"
     else if hasKey g "current_page" then "current_page" else "currentPage") =
      (firstPresent g pageSyns).getD "currentPage" := by
  cases h1 : hasKey g "page" <;> cases h2 : hasKey g "current_page" <;>
    cases h3 : hasKey g "currentPage" <;>
    simp [firstPresent, pageSyns, h1, h2, h3]

theorem keySelPerPage (g : List (String × Json)) :
    (if hasKey g "per_page" then "per_page"
     else if hasKey g "page_size" then "page_size"
     else if hasKey g "perPage" then "perPage" else "pageSize") =
      (firstPresent g perPageSyns).getD "pageSize" := by
  cases h1 : hasKey g "per_page" <;> cases h2 : hasKey g "page_size" <;>
    cases h3 : hasKey g "perPage" <;> cases h4 : hasKey g "pageSize" <;>
    simp [firstPresent, perPageSyns, h1, h2, h3, h4]

theorem keySelTotal (g : List (String × Json)) :
    (if hasKey g "total" then "total"
     else if hasKey g "total_count" then "total_count" else "totalCount") =
      (firstPresent g totalSyns).getD "totalCount" := by
  cases h1 : hasKey g "total" <;> cases h2 : hasKey g "total_count" <;>
    cases h3 : hasKey g "totalCount" <;>
    simp [firstPresent, totalSyns, h1, h2, h3]

theorem checkPaginationContainer_page (k : String) (g : List (String × Json))
    (hsig : pageSigB g = true) :
    checkPaginationContainer k (.obj g) =
      some (.page "page" "limit"
        { currentPage := k ++ "." ++ ((firstPresent g pageSyns).getD "currentPage")
          perPage := k ++ "." ++ ((firstPresent g perPageSyns).getD "pageSize")
          total := k ++ "." ++ ((firstPresent g totalSyns).getD "totalCount") }) := by
  unfold pageSigB at hsig
  simp only [checkPaginationContainer, hsig, if_true]
  rw [keySelPage g, keySelPerPage g, keySelTotal g]

theorem checkPaginationContainer_offset (k : String) (g : List (String × Json))
    (hpage : pageSigB g = false) (hoff : offsetSigB g = true) :
    checkPaginationContainer k (.obj g) =
      some (.offset "offset" "limit"
        { offset := k ++ "." ++ "offset"
          limit := k ++ "." ++ "limit"
          total := k ++ "." ++ "total" }) := by
  unfold pageSigB at hpage
  unfold offsetSigB at hoff
  simp only [checkPaginationContainer, hpage, hoff, if_true, Bool.false_eq_true, if_false]

theorem checkPaginationContainer_eq_none (k : String) (v : Json)
    (h : containerMatch v = false) :
    checkPaginationContainer k v = none := by
  cases v with
  | obj g =>
    simp only [containerMatch, Bool.or_eq_false_iff] at h
    obtain ⟨hpage, hoff⟩ := h
    unfold pageSigB at hpage
    unfold offsetSigB at hoff
    simp only [checkPaginationContainer, hpage, hoff, Bool.false_eq_true, if_false]
  | null => rfl
  | bool b => rfl
  | num q => rfl
  | str s => rfl
  | arr es => rfl

theorem checkPaginationContainer_isSome (k : String) (v : Json) :
    (checkPaginationContainer k v).isSome = containerMatch v := by
  cases v with
  | obj g =>
    cases hpage : pageSigB g with
    | true =>
      rw [checkPaginationContainer_page k g hpage]
      simp [containerMatch, hpage]
    | false =>
      cases hoff : offsetSigB g with
      | true =>
        rw [checkPaginationContainer_offset k g hpage hoff]
        simp [containerMatch, hpage, hoff]
      | false =>
        rw [checkPaginationContainer_eq_none k (.obj g) (by simp [containerMatch, hpage, hoff])]
        simp [containerMatch, hpage, hoff]
  | null => rfl
  | bool b => rfl
  | num q => rfl
  | str s => rfl
  | arr es => rfl

theorem detectPaginationList_append_none :
    ∀ (pre rest : List (String × Json)),
      (∀ p ∈ pre, checkPaginationContainer p.1 p.2 = none) →
      detectPaginationList (pre ++ rest) = detectPaginationList rest := by
  intro pre
  induction pre with
  | nil => intro rest _; rfl
  | cons p ps ih =>
    intro rest hpre
    obtain ⟨k, v⟩ := p
    have h0 := hpre (k, v) (List.mem_cons_self _ _)
    have ih2 := ih rest (fun q hq => hpre q (List.mem_cons_of_mem _ hq))
    simp only [List.cons_append, detectPaginationList, h0]
    exact ih2

theorem detectPaginationList_canonical :
    ∀ (l : List (String × Json)) (p : Pagination),
      detectPaginationList l = some p → paramsCanonical p := by
  intro l
  induction l with
  | nil => intro p h; exact absurd h (by simp [detectPaginationList])
  | cons q qs ih =>
    intro p h
    obtain ⟨k, v⟩ := q
    simp only [detectPaginationList] at h
    cases hc : checkPaginationContainer k v with
    | none => rw [hc] at h; exact ih p h
    | some p0 =>
      rw [hc] at h
      cases h
      cases v with
      | obj g =>
        cases hpage : pageSigB g with
        | true =>
          rw [checkPaginationContainer_page k g hpage] at hc
          cases hc
          exact ⟨rfl, rfl⟩
        | false =>
          cases hoff : offsetSigB g with
          | true =>
            rw [checkPaginationContainer_offset k g hpage hoff] at hc
            cases hc
            exact ⟨rfl, rfl⟩
          | false =>
            rw [checkPaginationContainer_eq_none k (.obj g)
              (by simp [containerMatch, hpage, hoff])] at hc
            exact absurd hc (by simp)
      | null => exact absurd hc (by simp [checkPaginationContainer])
      | bool b => exact absurd hc (by simp [checkPaginationContainer])
      | num qq => exact absurd hc (by simp [checkPaginationContainer])
      | str s => exact absurd hc (by simp [checkPaginationContainer])
      | arr es => exact absurd hc (by simp [checkPaginationContainer])

/-- C5 (amended): `detectPagination` scans an object's properties in
order, accepts the first non-array object-valued property matching a
signature, tests the page-based signature before the offset-based one,
and always returns canonical `pageParam`/`limitParam` (or
`offsetParam`/`limitParam`) names.  `metaPaths` record the actual
`<container>.<key>` names found for synonyms that are present; when the
page signature matched without a per-page synonym the perPage path falls
back to the absent name `pageSize`, when no total synonym is present the
total path falls back to `totalCount`, and the offset branch always
records `<container>.total` even when no `total` key exists.  No match
yields `null`, and `inferSchema` never reports pagination for a
top-level array. -/
theorem detectPagination_spec :
    (∀ (j : Json) (p : Pagination), detectPagination j = some p → paramsCanonical p) ∧
    (∀ (pre post : List (String × Json)) (k : String) (g : List (String × Json)),
      (∀ q ∈ pre, containerMatch q.2 = false) →
      pageSigB g = true →
      ∀ pk, firstPresent g pageSyns = some pk →
      detectPagination (.obj (pre ++ (k, .obj g) :: post)) =
        some (.page "page" "limit"
          { currentPage := k ++ "." ++ pk
            perPage := k ++ "." ++ ((firstPresent g perPageSyns).getD "pageSize")
            total := k ++ "." ++ ((firstPresent g totalSyns).getD "totalCount") })) ∧
    (∀ (pre post : List (String × Json)) (k : String) (g : List (String × Json)),
      (∀ q ∈ pre, containerMatch q.2 = false) →
      pageSigB g = false → offsetSigB g = true →
      detectPagination (.obj (pre ++ (k, .obj g) :: post)) =
        some (.offset "offset" "limit"
          { offset := k ++ "." ++ "offset"
            limit := k ++ "." ++ "limit"
            total := k ++ "." ++ "total" })) ∧
    (∀ fs, (∀ q ∈ fs, containerMatch q.2 = false) → detectPagination (.obj fs) = none) ∧
    (∀ (es : List Json) (s : Schema), inferSchema (.arr es) = some s → s.pagination = none) := by
  refine ⟨?_, ?_, ?_, ?_, ?_⟩
  · intro j p h
    cases j with
    | obj fs => exact detectPaginationList_canonical fs p h
    | arr es => exact detectPaginationList_canonical _ p h
    | null => exact absurd h (by simp [detectPagination])
    | bool b => exact absurd h (by simp [detectPagination])
    | num q => exact absurd h (by simp [detectPagination])
    | str s => exact absurd h (by simp [detectPagination])
  · intro pre post k g hpre hsig pk hpk
    have hskip := detectPaginationList_append_none pre ((k, .obj g) :: post)
      (fun q hq => checkPaginationContainer_eq_none q.1 q.2 (hpre q hq))
    simp only [detectPagination, hskip, detectPaginationList]
    rw [checkPaginationContainer_page k g hsig, hpk]
    rfl
  · intro pre post k g hpre hpage hoff
    have hskip := detectPaginationList_append_none pre ((k, .obj g) :: post)
      (fun q hq => checkPaginationContainer_eq_none q.1 q.2 (hpre q hq))
    simp only [detectPagination, hskip, detectPaginationList]
    rw [checkPaginationContainer_offset k g hpage hoff]
  · intro fs h
    have hskip := detectPaginationList_append_none fs []
      (fun q hq => checkPaginationContainer_eq_none q.1 q.2 (h q hq))
    simpa using hskip
  · intro es s h
    cases es with
    | nil => exact absurd h (by simp [inferSchema])
    | cons e es =>
      have := inferSchema_dispatch.2.2.1 e es
      rw [this] at h
      cases h
      rfl

/-- C5 counterexample: a container holding only `page` and `total`
satisfies the page signature, and `detectPagination` records
`metaPaths.perPage = "m.pageSize"` although the container has no
per-page synonym and in particular no key `pageSize`; the recorded path
is therefore not an actually-found key name. -/
theorem detectPagination_fallback_counterexample :
    detectPagination (.obj [("m", .obj [("page", .num 1), ("total", .num 5)])]) =
      some (.page "page" "limit"
        { currentPage := "m.page", perPage := "m.pageSize", total := "m.total" }) ∧
    hasKey [("page", .num 1), ("total", .num 5)] "pageSize" = false ∧
    firstPresent [("page", .num 1), ("total", .num 5)] perPageSyns = none :=
  ⟨rfl, rfl, rfl⟩

/-- C5 witness: a wrapped response whose `meta` container carries both a
page-based and an offset-based signature; the page-based one wins and
all recognised names are canonicalised. -/
theorem detectPagination_spec_witness :
    detectPagination (.obj [("data", .arr [.num 1]),
      ("meta", .obj [("page", .num 1), ("per_page", .num 10), ("total", .num 100),
                     ("offset", .num 0), ("limit", .num 10)])]) =
      some (.page "page" "limit"
        { currentPage := "meta.page", perPage := "meta.per_page", total := "meta.total" }) := by
  have h := detectPagination_spec.2.1 [("data", .arr [.num 1])] []
    "meta" [("page", .num 1), ("per_page", .num 10), ("total", .num 100),
            ("offset", .num 0), ("limit", .num 10)]
    (by decide) (by decide) "page" rfl
  exact h.trans rfl

/-- C10: whether a candidate container is accepted depends only on the
keys inside it, never on the container's own property name, and a
matching container is detected under any key, in particular one outside
the declared (and never consulted) `paginationKeys` list. -/
theorem detectPagination_ignores_container_name :
    (∀ (k1 k2 : String) (v : Json),
      (checkPaginationContainer k1 v).isSome = (checkPaginationContainer k2 v).isSome) ∧
    (∀ (k : String) (v : Json), (checkPaginationContainer k v).isSome = containerMatch v) ∧
    (∀ (k : String) (g : List (String × Json)),
      k ∉ paginationKeys → (pageSigB g || offsetSigB g) = true →
      (detectPagination (.obj [(k, .obj g)])).isSome = true) := by
  refine ⟨?_, checkPaginationContainer_isSome, ?_⟩
  · intro k1 k2 v
    rw [checkPaginationContainer_isSome, checkPaginationContainer_isSome]
  · intro k g _ hsig
    simp only [detectPagination, detectPaginationList]
    cases hc : checkPaginationContainer k (.obj g) with
    | some p => rfl
    | none =>
      have := checkPaginationContainer_isSome k (.obj g)
      rw [hc] at this
      simp only [containerMatch] at this
      rw [hsig] at this
      exact absurd this.symm (by simp)

/-- C10 witness: an offset-signature container under the key `stats`,
which is not in `paginationKeys`, is still detected. -/
theorem detectPagination_ignores_container_name_witness :
    (detectPagination (.obj [("stats", .obj [("offset", .num 0), ("limit", .num 10)])])).isSome = true :=
  detectPagination_ignores_container_name.2.2 "stats" [("offset", .num 0), ("limit", .num 10)]
    (by decide) (by decide)

/-!
Theorems about `mergeFieldTypes` (claim C6).
-/

theorem mem_dedupAux (y : String) :
    ∀ (l seen : List String), y ∈ dedupAux seen l ↔ (y ∈ l ∧ y ∉ seen) := by
  intro l
  induction l with
  | nil => intro seen; simp [dedupAux]
  | cons a as ih =>
    intro seen
    by_cases ha : a ∈ seen
    · rw [dedupAux, if_pos ha, ih seen]
      by_cases hy : y = a
      · subst hy; simp [ha]
      · simp [List.mem_cons, hy]
    · rw [dedupAux, if_neg ha]
      simp only [List.mem_cons, ih (a :: seen)]
      by_cases hy : y = a
      · subst hy; simp [ha]
      · simp [hy]

theorem mem_dedupKeepFirst (y : String) (l : List String) :
    y ∈ dedupKeepFirst l ↔ y ∈ l := by
  rw [dedupKeepFirst, mem_dedupAux]
  simp

theorem dedupAux_snoc (x : String) :
    ∀ (l seen : List String),
      dedupAux seen (l ++ [x]) =
        dedupAux seen l ++ (if x ∈ seen ∨ x ∈ l then [] else [x]) := by
  intro l
  induction l with
  | nil =>
    intro seen
    by_cases hx : x ∈ seen <;> simp [dedupAux, hx]
  | cons a as ih =>
    intro seen
    by_cases ha : a ∈ seen
    · rw [List.cons_append, dedupAux, if_pos ha, ih seen, dedupAux, if_pos ha]
      congr 1
      apply if_congr _ rfl rfl
      constructor
      · rintro (h | h)
        · exact Or.inl h
        · exact Or.inr (List.mem_cons_of_mem _ h)
      · rintro (h | h)
        · exact Or.inl h
        · rcases List.mem_cons.mp h with h | h
          · subst h; exact Or.inl ha
          · exact Or.inr h
    · rw [List.cons_append, dedupAux, if_neg ha, ih (a :: seen), dedupAux, if_neg ha,
        List.cons_append]
      congr 2
      apply if_congr _ rfl rfl
      constructor
      · rintro (h | h)
        · rcases List.mem_cons.mp h with h | h
          · subst h; exact Or.inr (List.mem_cons_self _ _)
          · exact Or.inl h
        · exact Or.inr (List.mem_cons_of_mem _ h)
      · rintro (h | h)
        · exact Or.inl (List.mem_cons_of_mem _ h)
        · rcases List.mem_cons.mp h with h | h
          · subst h; exact Or.inl (List.mem_cons_self _ _)
          · exact Or.inr h

theorem dedupKeepFirst_snoc (x : String) (l : List String) :
    dedupKeepFirst (l ++ [x]) =
      if x ∈ l then dedupKeepFirst l else dedupKeepFirst l ++ [x] := by
  rw [dedupKeepFirst, dedupAux_snoc, dedupKeepFirst]
  by_cases hx : x ∈ l <;> simp [hx]

theorem namesOf_append (l1 l2 : List Field) :
    namesOf (l1 ++ l2) = namesOf l1 ++ namesOf l2 := by
  simp [namesOf]

theorem typesAt_snoc_ne (l : List Field) (f : Field) (n : String) (hne : f.name ≠ n) :
    typesAt (l ++ [f]) n = typesAt l n := by
  simp [typesAt, List.filter_append, List.filter_cons, hne]

theorem typesAt_snoc_eq (l : List Field) (f : Field) :
    typesAt (l ++ [f]) f.name =
      if f.type ∈ typesAt l f.name then typesAt l f.name
      else typesAt l f.name ++ [f.type] := by
  have h1 : typesAt (l ++ [f]) f.name =
      dedupKeepFirst (((l.filter (fun g => g.name == f.name)).map Field.type) ++ [f.type]) := by
    simp [typesAt, List.filter_append, List.filter_cons]
  rw [h1, dedupKeepFirst_snoc]
  have h2 : f.type ∈ (l.filter (fun g => g.name == f.name)).map Field.type ↔
      f.type ∈ typesAt l f.name := (mem_dedupKeepFirst _ _).symm
  by_cases hx : f.type ∈ typesAt l f.name
  · rw [if_pos (h2.mpr hx), if_pos hx]; rfl
  · rw [if_neg (fun hc => hx (h2.mp hc)), if_neg hx]; rfl

theorem sampleAt_append (l1 l2 : List Field) (n : String) :
    sampleAt (l1 ++ l2) n = (sampleAt l1 n).or (sampleAt l2 n) := by
  simp only [sampleAt, List.find?_append]
  cases l1.find? (fun f => f.name == n) <;> simp

theorem sampleAt_eq_none (l : List Field) (n : String) (h : n ∉ namesOf l) :
    sampleAt l n = none := by
  rw [sampleAt, List.find?_eq_none.mpr, Option.map_none']
  intro f hf hname
  exact h (List.mem_map.mpr ⟨f, hf, by simpa using hname⟩)

theorem typesAt_not_mem (l : List Field) (n : String) (h : n ∉ namesOf l) :
    typesAt l n = [] := by
  rw [typesAt, List.filter_eq_nil_iff.mpr]
  · rfl
  · intro f hf hname
    exact h (List.mem_map.mpr ⟨f, hf, by simpa using hname⟩)

theorem mergeInv_step (l : List Field) (acc : List FieldAcc) (f : Field)
    (h : MergeInv l acc) : MergeInv (l ++ [f]) (addField acc f) := by
  obtain ⟨hnames, hmem⟩ := h
  have hnamesnoc : namesOf (l ++ [f]) = namesOf l ++ [f.name] := by
    rw [namesOf_append]; rfl
  by_cases hin : acc.any (fun fa => fa.name == f.name) = true
  · have hfname : f.name ∈ namesOf l := by
      have hm : f.name ∈ acc.map FieldAcc.name := by
        simp only [List.any_eq_true, beq_iff_eq] at hin
        obtain ⟨fa, hfa, he⟩ := hin
        exact List.mem_map.mpr ⟨fa, hfa, he⟩
      rw [hnames] at hm
      exact (mem_dedupKeepFirst _ _).mp hm
    have hupd : (acc.map fun fa =>
        if fa.name == f.name then
          { fa with types := if fa.types.contains f.type then fa.types else fa.types ++ [f.type] }
        else fa).map FieldAcc.name = acc.map FieldAcc.name := by
      rw [List.map_map]
      apply List.map_congr_left
      intro fa _
      by_cases hfa : fa.name = f.name <;> simp [hfa]
    constructor
    · rw [addField, if_pos hin, hupd, hnames, hnamesnoc, dedupKeepFirst_snoc, if_pos hfname]
    · intro fa' hfa'
      rw [addField, if_pos hin] at hfa'
      obtain ⟨fa, hfa, hfa'eq⟩ := List.mem_map.mp hfa'
      obtain ⟨htypes, hsample⟩ := hmem fa hfa
      by_cases heq : fa.name = f.name
      · rw [if_pos (by simpa using heq)] at hfa'eq
        subst hfa'eq
        have hname' : ({ fa with types := if fa.types.contains f.type then fa.types
            else fa.types ++ [f.type] } : FieldAcc).name = fa.name := rfl
        rw [hname', heq]
        constructor
        · rw [typesAt_snoc_eq l f]
          have hcont : fa.types.contains f.type = true ↔ f.type ∈ typesAt l f.name := by
            rw [htypes, heq]
            simp [List.contains_iff_exists_mem_beq, beq_iff_eq]
          by_cases hc : f.type ∈ typesAt l f.name
          · rw [if_pos hc]
            simp only [hcont.mpr hc, if_true]
            rw [htypes, heq]
          · rw [if_neg hc]
            have : fa.types.contains f.type = false := by
              cases hcc : fa.types.contains f.type with
              | true => exact absurd (hcont.mp hcc) hc
              | false => rfl
            simp only [this, Bool.false_eq_true, if_false]
            rw [htypes, heq]
        · have hs : sampleAt l f.name = some fa.sample := by rw [← heq]; exact hsample
          rw [sampleAt_append, hs]
          rfl
      · rw [if_neg (by simpa using heq)] at hfa'eq
        subst hfa'eq
        refine ⟨?_, ?_⟩
        · rw [typesAt_snoc_ne l f fa.name (fun hc => heq hc.symm), htypes]
        · rw [sampleAt_append, hsample]; rfl
  · have hnotin : f.name ∉ namesOf l := by
      intro hc
      have hm : f.name ∈ dedupKeepFirst (namesOf l) := (mem_dedupKeepFirst _ _).mpr hc
      rw [← hnames] at hm
      obtain ⟨fa, hfa, hname⟩ := List.mem_map.mp hm
      apply hin
      simp only [List.any_eq_true]
      exact ⟨fa, hfa, by simpa using hname⟩
    constructor
    · rw [addField, if_neg hin, List.map_append, hnames, hnamesnoc, dedupKeepFirst_snoc,
        if_neg hnotin]
      rfl
    · intro fa' hfa'
      rw [addField, if_neg hin] at hfa'
      rcases List.mem_append.mp hfa' with hold | hnew
      · obtain ⟨htypes, hsample⟩ := hmem fa' hold
        have hne : fa'.name ≠ f.name := by
          intro hc
          apply hin
          simp only [List.any_eq_true]
          exact ⟨fa', hold, by simpa using hc⟩
        refine ⟨?_, ?_⟩
        · rw [typesAt_snoc_ne l f fa'.name (fun hc => hne hc.symm), htypes]
        · rw [sampleAt_append, hsample]; rfl
      · have : fa' = { name := f.name, types := [f.type], sample := f.sample } := by
          simpa using hnew
        subst this
        refine ⟨?_, ?_⟩
        · rw [typesAt_snoc_eq l f]
          rw [typesAt_not_mem l f.name hnotin]
          simp
        · rw [sampleAt_append, sampleAt_eq_none l f.name hnotin]
          simp [sampleAt]

theorem mergeInv_foldl :
    ∀ (l2 l : List Field) (acc : List FieldAcc),
      MergeInv l acc → MergeInv (l ++ l2) (l2.foldl addField acc) := by
  intro l2
  induction l2 with
  | nil => intro l acc h; simpa using h
  | cons f fs ih =>
    intro l acc h
    have h2 := ih (l ++ [f]) (addField acc f) (mergeInv_step l acc f h)
    rw [List.append_assoc, List.singleton_append] at h2
    exact h2

/-- C6: `mergeFieldTypes` returns exactly one entry per distinct field
name in first-seen order across the flattened sample stream; each
entry's type is the single tag when all occurrences agree and otherwise
the distinct observed tags sorted and joined with `|`; each entry's
sample value comes from the first occurrence of the field. -/
theorem mergeFieldTypes_spec (samples : List Json) :
    mergeFieldTypes samples = mergedFieldsSpec (allFields samples) := by
  have hfold : ∀ (ss : List Json) (a : List FieldAcc),
      ss.foldl (fun acc s => (inferFields s).foldl addField acc) a =
      (allFields ss).foldl addField a := by
    intro ss
    induction ss with
    | nil => intro a; rfl
    | cons s ss ih => intro a; rw [allFields, List.foldl_append, List.foldl_cons, ih]
  have hbase : MergeInv [] [] := ⟨rfl, fun fa hfa => absurd hfa (List.not_mem_nil fa)⟩
  have hinv := mergeInv_foldl (allFields samples) [] [] hbase
  rw [List.nil_append] at hinv
  obtain ⟨hnames, hent⟩ := hinv
  rw [mergeFieldTypes, hfold samples []]
  rw [mergedFieldsSpec, ← hnames, List.map_map]
  apply List.map_congr_left
  intro fa hfa
  obtain ⟨htypes, hsample⟩ := hent fa hfa
  simp only [Function.comp]
  rw [htypes, hsample]
  rfl

/-!
Theorems about the config generator (claims C7, C8, C9).
-/

/-- C7: `maskSensitiveHeaders` keeps every header name in order,
replaces the value of every header whose lower-cased name contains a
denylist substring with the literal `<masked>`, passes every other
value through unchanged, never emits an original sensitive value, and
is idempotent. -/
theorem maskSensitiveHeaders_spec :
    (∀ h : List (String × String),
      (maskSensitiveHeaders h).map Prod.fst = h.map Prod.fst) ∧
    (∀ (h : List (String × String)) (k v : String),
      (k, v) ∈ h → isSensitiveName k = true → (k, "<masked>") ∈ maskSensitiveHeaders h) ∧
    (∀ (h : List (String × String)) (k v : String),
      (k, v) ∈ maskSensitiveHeaders h → isSensitiveName k = true → v = "<masked>") ∧
    (∀ (h : List (String × String)) (k v : String),
      (k, v) ∈ h → isSensitiveName k = false → (k, v) ∈ maskSensitiveHeaders h) ∧
    (∀ h : List (String × String),
      maskSensitiveHeaders (maskSensitiveHeaders h) = maskSensitiveHeaders h) := by
  refine ⟨?_, ?_, ?_, ?_, ?_⟩
  · intro h
    simp [maskSensitiveHeaders, List.map_map, Function.comp]
  · intro h k v hmem hsens
    exact List.mem_map.mpr ⟨(k, v), hmem, by simp [hsens]⟩
  · intro h k v hmem hsens
    obtain ⟨⟨k0, v0⟩, hm, he⟩ := List.mem_map.mp hmem
    obtain ⟨hk, hv⟩ := Prod.mk.injEq .. ▸ he
    subst hk
    rw [← hv, hsens]
    rfl
  · intro h k v hmem hsens
    exact List.mem_map.mpr ⟨(k, v), hmem, by simp [hsens]⟩
  · intro h
    rw [maskSensitiveHeaders, maskSensitiveHeaders, List.map_map]
    apply List.map_congr_left
    intro kv _
    by_cases hk : isSensitiveName kv.1 <;> simp [Function.comp, hk]

/-- C7 witness: a sensitive and a non-sensitive header, masked once and
twice. -/
theorem maskSensitiveHeaders_spec_witness :
    ("Authorization", "<masked>") ∈
      maskSensitiveHeaders [("Authorization", "Bearer xyz"), ("Accept", "application/json")] ∧
    ("Accept", "application/json") ∈
      maskSensitiveHeaders [("Authorization", "Bearer xyz"), ("Accept", "application/json")] ∧
    maskSensitiveHeaders (maskSensitiveHeaders
        [("Authorization", "Bearer xyz"), ("Accept", "application/json")]) =
      maskSensitiveHeaders [("Authorization", "Bearer xyz"), ("Accept", "application/json")] := by
  refine ⟨?_, ?_, maskSensitiveHeaders_spec.2.2.2.2 _⟩
  · exact maskSensitiveHeaders_spec.2.1 _ "Authorization" "Bearer xyz" (by simp) rfl
  · exact maskSensitiveHeaders_spec.2.2.2.1 _ "Accept" "application/json" (by simp) rfl

/-- C8: `mapFieldType` sends `integer` and `number` to `number`;
`string`, `object`, `array` and `null` to `text`; and every type string
containing `|` to `text` regardless of its constituents. -/
theorem mapFieldType_spec :
    mapFieldType "integer" = "number" ∧
    mapFieldType "number" = "number" ∧
    mapFieldType "string" = "text" ∧
    mapFieldType "object" = "text" ∧
    mapFieldType "array" = "text" ∧
    mapFieldType "null" = "text" ∧
    (∀ t : String, strIncludes t "|" = true → mapFieldType t = "text") := by
  refine ⟨rfl, rfl, rfl, rfl, rfl, rfl, ?_⟩
  intro t h
  have hne : (t == "") = false := by
    cases he : (t == "") with
    | true =>
      have ht : t = "" := by simpa using he
      subst ht
      exact absurd h (by decide)
    | false => rfl
  simp [mapFieldType, hne, h]

/-- C8 witness: the mixed-type union tag maps to `text`. -/
theorem mapFieldType_spec_witness :
    mapFieldType "boolean|number|string" = "text" :=
  mapFieldType_spec.2.2.2.2.2.2 "boolean|number|string" rfl

/-- C9: `generateImportWrapper` emits one table column per schema field,
in order, with `key` equal to the field name and selector
`"<samplePath>[].<name>"`; a dataBinding referencing the datasource
output at `samplePath` with the leading `$` stripped; and a pagination
component exactly when the schema carries pagination, carrying its type
through and defaulting `pageParam`/`limitParam` to `"page"`/`"limit"`
when the schema did not supply them. -/
theorem generateImportWrapper_spec :
    (∀ (s : GenSchema) (optsName : Option String),
      (generateImportWrapper s optsName).components.table.columns =
        (s.fields.getD []).map (fun f =>
          { name := f.name, key := f.name, type := mapFieldType f.type
            selector := (s.samplePath.getD "$") ++ "[]." ++ f.name })) ∧
    (∀ (s : GenSchema) (optsName : Option String) (cs : List Char),
      (s.samplePath.getD "$").toList = '$' :: cs →
      (generateImportWrapper s optsName).components.table.dataBinding =
        "\x7b\x7bdatasource.data" ++ String.mk cs ++ "\x7d\x7d") ∧
    (∀ (s : GenSchema) (optsName : Option String),
      (generateImportWrapper s optsName).components.pagination.isSome = s.pagination.isSome) ∧
    (∀ (s : GenSchema) (optsName : Option String) (p : PagInput) (pc : PagComp),
      s.pagination = some p →
      (generateImportWrapper s optsName).components.pagination = some pc →
      pc.type = p.type ∧
      (p.pageParam = none → pc.pageParam = "page") ∧
      (p.limitParam = none → pc.limitParam = "limit")) := by
  refine ⟨fun s optsName => rfl, ?_, ?_, ?_⟩
  · intro s optsName cs h
    show "\x7b\x7bdatasource.data" ++ replaceFirstDollar (s.samplePath.getD "$") ++ "\x7d\x7d" = _
    rw [replaceFirstDollar, h]
    simp [dropFirstDollar]
  · intro s optsName
    cases hp : s.pagination <;> simp [generateImportWrapper, hp]
  · intro s optsName p pc hp hpc
    simp only [generateImportWrapper, hp] at hpc
    have hpc2 := Option.some.inj hpc
    subst hpc2
    refine ⟨rfl, ?_, ?_⟩
    · intro hnone; rw [hnone]; rfl
    · intro hnone; rw [hnone]; rfl

/-- C9 witness: a schema with two fields, samplePath `$.orders`, and a
pagination object supplying neither `pageParam` nor `limitParam`. -/
theorem generateImportWrapper_spec_witness :
    (generateImportWrapper
        { url := some "http://api.example.com/orders"
          fields := some [{ name := "id", type := "integer", sample := .num 1 },
                          { name := "tags", type := "array", sample := .arr [] }]
          samplePath := some "$.orders"
          pagination := some { type := "page", pageParam := none, limitParam := none
                               metaPaths := some [("currentPage", "meta.page")] }
          headers := none, queryParams := none } none).components.table.columns =
      [{ name := "id", key := "id", type := "number", selector := "$.orders[].id" },
       { name := "tags", key := "tags", type := "text", selector := "$.orders[].tags" }] ∧
    (generateImportWrapper
        { url := some "http://api.example.com/orders"
          fields := some [{ name := "id", type := "integer", sample := .num 1 },
                          { name := "tags", type := "array", sample := .arr [] }]
          samplePath := some "$.orders"
          pagination := some { type := "page", pageParam := none, limitParam := none
                               metaPaths := some [("currentPage", "meta.page")] }
          headers := none, queryParams := none } none).components.table.dataBinding =
      "\x7b\x7bdatasource.data.orders\x7d\x7d" ∧
    (generateImportWrapper
        { url := some "http://api.example.com/orders"
          fields := some [{ name := "id", type := "integer", sample := .num 1 },
                          { name := "tags", type := "array", sample := .arr [] }]
          samplePath := some "$.orders"
          pagination := some { type := "page", pageParam := none, limitParam := none
                               metaPaths := some [("currentPage", "meta.page")] }
          headers := none, queryParams := none } none).components.pagination.isSome = true ∧
    (generateImportWrapper
        { url := some "http://api.example.com/orders"
          fields := some [{ name := "id", type := "integer", sample := .num 1 },
                          { name := "tags", type := "array", sample := .arr [] }]
          samplePath := some "$.orders"
          pagination := some { type := "page", pageParam := none, limitParam := none
                               metaPaths := some [("currentPage", "meta.page")] }
          headers := none, queryParams := none } none).components.pagination =
      some { component := "Pagination", type := "page", pageParam := "page"
             limitParam := "limit", metaPaths := [("currentPage", "meta.page")] } := by
  refine ⟨(generateImportWrapper_spec.1 _ none).trans rfl, ?_, (generateImportWrapper_spec.2.2.1 _ none).trans rfl, rfl⟩
  exact (generateImportWrapper_spec.2.1
    { url := some "http://api.example.com/orders"
      fields := some [{ name := "id", type := "integer", sample := .num 1 },
                      { name := "tags", type := "array", sample := .arr [] }]
      samplePath := some "$.orders"
      pagination := some { type := "page", pageParam := none, limitParam := none
                           metaPaths := some [("currentPage", "meta.page")] }
      headers := none, queryParams := none } none ".orders".toList rfl).trans rfl

end SmartDataConnector
